import Mathlib

/-!
# Verification of the Yhteystieto-scraper contact-extraction pipeline

Shallow embedding of the TypeScript sources of the `Yhteystieto-scraper`
repository (`src/lib/scraper.ts`, `src/app/api/scrape/route.ts`,
`src/utils/csvUtils.ts`, and the CSV upload route), together with proofs of
the behavioural properties stated in the project's specification.

JavaScript strings are modelled as Lean `String`/`List Char`; thrown
exceptions as `Except`; the HTTP transport is abstracted as a function from
attempt number to outcome.  Every definition follows the corresponding
source function, with the source file and symbol named in its doc comment.
-/

namespace Yhteystieto

/-! ## String helpers (JS primitives used by the source) -/

/-- Substring search on character lists: does `pat` occur contiguously in
`l`?  Checked at every suffix, as JS `String.prototype.includes` does. -/
def includesAux (pat : List Char) : List Char → Bool
  | [] => pat.isEmpty
  | c :: t => pat.isPrefixOf (c :: t) || includesAux pat t

/-- JS `String.prototype.includes`: substring containment. -/
def strIncludes (s pat : String) : Bool :=
  includesAux pat.data s.data

/-! ## Normalizer (`src/lib/scraper.ts`, `isValidPhoneNumber` /
`normalizePhoneNumber`) -/

/-- The character class kept by `phone.replace(/[^\d+]/g, '')`:
ASCII digits and `+`. -/
def keepPhoneChar (c : Char) : Bool :=
  c.isDigit || c == '+'

/-- `phone.replace(/[^\d+]/g, '')` on the character list of a JS string. -/
def cleanChars (l : List Char) : List Char :=
  l.filter keepPhoneChar

/-- `normalizePhoneNumber` (scraper.ts lines 572–584): strip everything but
digits and `+`; a result starting with `+358` is returned as cleaned, a
result starting with `0` has the `0` replaced by `+358`, and otherwise the
original string is returned unchanged. -/
def normalizePhoneNumber (phone : String) : String :=
  let cleanPhone := cleanChars phone.data
  if ['+', '3', '5', '8'].isPrefixOf cleanPhone then
    String.mk cleanPhone
  else if ['0'].isPrefixOf cleanPhone then
    String.mk ('+' :: '3' :: '5' :: '8' :: cleanPhone.drop 1)
  else
    phone

/-- The character class of JS `\s` (whitespace) as used in the phone
regexes of scraper.ts. -/
def isJsWs (c : Char) : Bool :=
  c == ' ' || c == '\t' || c == '\n' || c == '\x0b' || c == '\x0c' ||
  c == '\r' || c == '\u00A0' || c == '\u1680' || c == '\u2000' ||
  c == '\u2001' || c == '\u2002' || c == '\u2003' || c == '\u2004' ||
  c == '\u2005' || c == '\u2006' || c == '\u2007' || c == '\u2008' ||
  c == '\u2009' || c == '\u200A' || c == '\u2028' || c == '\u2029' ||
  c == '\u202F' || c == '\u205F' || c == '\u3000' || c == '\uFEFF'

/-- `/^\+358[0-9]{8,9}$/`-shaped match: the `\+358` alternative of the first
regex in `isValidPhoneNumber` (scraper.ts line 565). -/
def matchIntl (l : List Char) : Bool :=
  match l with
  | '+' :: '3' :: '5' :: '8' :: rest =>
    rest.all (fun c => c.isDigit) && (rest.length == 8 || rest.length == 9)
  | _ => false

/-- `/^0[0-9]{8,9}$/`-shaped match: the `0` alternative of the first regex
in `isValidPhoneNumber` (scraper.ts line 565). -/
def matchNatl (l : List Char) : Bool :=
  match l with
  | '0' :: rest =>
    rest.all (fun c => c.isDigit) && (rest.length == 8 || rest.length == 9)
  | _ => false

/-- `[0-9]{4}$` — the final four digits of the spaced phone regex. -/
def part4 (l : List Char) : Bool :=
  match l with
  | [a, b, c, d] => a.isDigit && b.isDigit && c.isDigit && d.isDigit
  | _ => false

/-- `\s?[0-9]{4}$` — optional whitespace then the final four digits. -/
def optWs4 (l : List Char) : Bool :=
  match l with
  | [] => false
  | c :: rest => if isJsWs c then part4 rest else part4 (c :: rest)

/-- `[0-9]{3}\s?[0-9]{4}$` — middle digit group of the spaced regex. -/
def part3 (l : List Char) : Bool :=
  match l with
  | a :: b :: c :: rest => a.isDigit && b.isDigit && c.isDigit && optWs4 rest
  | _ => false

/-- `\s?[0-9]{3}\s?[0-9]{4}$` — optional whitespace then the middle group. -/
def optWs3 (l : List Char) : Bool :=
  match l with
  | [] => false
  | c :: rest => if isJsWs c then part3 rest else part3 (c :: rest)

/-- `[0-9]{2}\s?[0-9]{3}\s?[0-9]{4}$` — the tail of the second regex of
`isValidPhoneNumber` (scraper.ts line 566). -/
def spacedTail (l : List Char) : Bool :=
  match l with
  | a :: b :: rest => a.isDigit && b.isDigit && optWs3 rest
  | _ => false

/-- `/^(\+358|0)[0-9]{2}\s?[0-9]{3}\s?[0-9]{4}$/` — the second regex of
`isValidPhoneNumber` (scraper.ts line 566), tested against the original
(uncleaned) string.  The two prefix alternatives are mutually exclusive, so
the alternation is an if-chain on the leading characters. -/
def matchSpaced (l : List Char) : Bool :=
  if ['+', '3', '5', '8'].isPrefixOf l then spacedTail (l.drop 4)
  else if ['0'].isPrefixOf l then spacedTail (l.drop 1)
  else false

/-- `isValidPhoneNumber` (scraper.ts lines 560–567): the first regex is
tested against the cleaned string, the second against the original. -/
def isValidPhoneNumber (phone : String) : Bool :=
  matchIntl (cleanChars phone.data) || matchNatl (cleanChars phone.data) ||
    matchSpaced phone.data

/-! ## Data model (`src/types/index.ts`) -/

/-- `Person` from types/index.ts. -/
structure Person where
  name : String
  title : String
deriving Repr, DecidableEq

/-- `Contact` from types/index.ts: a grouped contact record. -/
structure Contact where
  name : String
  title : String
  phone : Option String
  email : Option String
deriving Repr, DecidableEq

/-- `ContactInfo` from types/index.ts. -/
structure ContactInfo where
  contacts : List Contact
  phoneNumbers : List String
  emailAddresses : List String
  people : List Person
deriving Repr, DecidableEq

/-- `ScrapingResult` from types/index.ts. -/
structure ScrapingResult where
  url : String
  success : Bool
  data : Option ContactInfo
  error : Option String
  timestamp : String
deriving Repr, DecidableEq

/-! ## Pattern Matcher: job-title detection
(`src/lib/scraper.ts`, `extractContactFromElement`, lines 316–338) -/

/-- The fixed ordered job-title keyword list of `extractContactFromElement`
(scraper.ts lines 317–330). -/
def titleKeywords : List String :=
  ["toimitusjohtaja", "tj", "ceo", "managing director",
   "myyntipäällikkö", "sales manager", "myynti",
   "markkinointipäällikkö", "marketing manager", "markkinointi",
   "asiakaspalvelupäällikkö", "customer service manager",
   "henkilöstöpäällikkö", "hr manager", "henkilöstö",
   "talouspäällikkö", "financial manager", "talous",
   "projektipäällikkö", "project manager", "projekti",
   "tiimipäällikkö", "team leader", "tiimi",
   "päällikkö", "manager", "johtaja", "director",
   "asiantuntija", "specialist", "konsultti", "consultant",
   "kehittäjä", "developer", "suunnittelija", "designer",
   "avustaja", "assistant", "koordinaattori", "coordinator"]

/-- Model of JS `String.prototype.toLowerCase` by characterwise ASCII
case-folding (`Char.toLower`): sufficient for the ASCII letters of the
keyword lists; non-ASCII letters are left unchanged. -/
def lowerStr (s : String) : String :=
  String.mk (s.data.map Char.toLower)

/-- `text.toLowerCase().includes(keyword)`: case-insensitive occurrence of a
(lowercase) keyword in the region text. -/
def occursCI (text kw : String) : Bool :=
  strIncludes (lowerStr text) kw

/-- The keyword loop of `extractContactFromElement` (scraper.ts lines
332–338): the title starts as `'Tuntematon'` and the first keyword found in
the lowercased text wins. -/
def extractTitleLoop (textLower : String) : List String → String
  | [] => "Tuntematon"
  | kw :: rest =>
    if strIncludes textLower kw then kw else extractTitleLoop textLower rest

/-- Title extraction from a contact-bearing region's text
(scraper.ts lines 316–338). -/
def extractTitle (text : String) : String :=
  extractTitleLoop (lowerStr text) titleKeywords

/-! ## Extractor: deduplication
(`src/lib/scraper.ts`, `removeDuplicateContacts`, lines 380–394) -/

/-- The dedup key: `contact.name.toLowerCase()`. -/
def contactKey (c : Contact) : String :=
  lowerStr c.name

/-- The `forEach` accumulation of `removeDuplicateContacts` (scraper.ts
lines 383–391): a contact is appended iff no already-kept contact has the
same lowercased name. -/
def dedupLoop : List Contact → List Contact → List Contact
  | acc, [] => acc
  | acc, c :: rest =>
    if acc.any (fun e => contactKey e == contactKey c) then
      dedupLoop acc rest
    else
      dedupLoop (acc ++ [c]) rest

/-- `removeDuplicateContacts` (scraper.ts lines 380–394): first-occurrence
dedup by lowercased name, then `slice(0, 10)`. -/
def removeDuplicateContacts (contacts : List Contact) : List Contact :=
  (dedupLoop [] contacts).take 10

/-- Declarative dedup following the spec's words ("records are merged by
case-insensitive name equality, first occurrence wins"): keep each record's
first occurrence, removing every later record with the same key.  Used to
compare `removeDuplicateContacts` against the spec. -/
def specFirstOccurrenceDedup : List Contact → List Contact
  | [] => []
  | c :: rest =>
    c :: specFirstOccurrenceDedup
      (rest.filter (fun d => !(contactKey d == contactKey c)))
termination_by l => l.length
decreasing_by
  simp only [List.length_cons]
  exact Nat.lt_succ_of_le (List.length_filter_le _ _)

/-! ## Fetcher retry loop
(`src/lib/scraper.ts`, `scrapeContactInfo` / `isNonRetryableError`) -/

/-- `maxRetries` in `scrapeContactInfo` (scraper.ts line 23). -/
def maxRetries : Nat := 3

/-- The pattern list of `isNonRetryableError` (scraper.ts lines 175–183). -/
def nonRetryablePatterns : List String :=
  ["Invalid URL", "404", "403", "401", "400", "ENOTFOUND", "ECONNREFUSED"]

/-- `isNonRetryableError` (scraper.ts lines 174–188):
`nonRetryablePatterns.some(pattern => error.message.includes(pattern))`. -/
def isNonRetryableError (msg : String) : Bool :=
  nonRetryablePatterns.any (fun p => strIncludes msg p)

/-- The `for (attempt = 1; attempt <= maxRetries; attempt++)` loop of
`scrapeContactInfo` (scraper.ts lines 26–103).  The whole body of one
attempt (URL validation, delays, header profile, HTTP request, status
check, extraction) is abstracted as `fetch attempt`, which either returns
extracted data or throws an error message.  On an error the loop breaks
immediately when `isNonRetryableError` holds, and otherwise continues until
the attempt budget (`fuel`) is spent; the error branch carries the last
error's message together with the number of attempts actually performed. -/
def scrapeAttempts {α : Type} (fetch : Nat → Except String α) :
    Nat → Nat → Except (String × Nat) α
  | attempt, 0 => .error ("Unknown error", attempt - 1)
  | attempt, fuel + 1 =>
    match fetch attempt with
    | .ok v => .ok v
    | .error e =>
      if isNonRetryableError e || fuel == 0 then
        .error (e, attempt)
      else
        scrapeAttempts fetch (attempt + 1) fuel

/-- The terminal error message of `scrapeContactInfo` (scraper.ts line
106): `Failed to scrape ${url} after ${maxRetries} attempts:
${lastError?.message}`. -/
def failMsg (url lastError : String) : String :=
  "Failed to scrape " ++ url ++ " after " ++ toString maxRetries ++
    " attempts: " ++ lastError

/-- `scrapeContactInfo` (scraper.ts lines 22–107): run the attempt loop;
on overall failure throw the terminal message built from the last error. -/
def scrapeContactInfo {α : Type} (fetch : Nat → Except String α)
    (url : String) : Except String α :=
  match scrapeAttempts fetch 1 maxRetries with
  | .ok v => .ok v
  | .error (e, _) => .error (failMsg url e)

/-! ## Batch Orchestrator
(`src/app/api/scrape/route.ts`, `PUT`, lines 59–120) -/

/-- `concurrencyLimit` (route.ts line 81). -/
def concurrencyLimit : Nat := 5

/-- The chunking loop (route.ts lines 84–86):
`for (i = 0; i < urls.length; i += concurrencyLimit)
   chunks.push(urls.slice(i, i + concurrencyLimit))`. -/
def chunked {α : Type} : List α → List (List α)
  | [] => []
  | x :: xs =>
    (x :: xs).take concurrencyLimit :: chunked ((x :: xs).drop concurrencyLimit)
termination_by l => l.length
decreasing_by
  simp only [concurrencyLimit, List.length_drop, List.length_cons]
  omega

/-- The per-URL worker of the batch route (route.ts lines 89–106): the
pipeline is run and any thrown error is caught and converted into a
`ScrapingResult` with `success: false` and that error's message.  The
whole fetch+extract pipeline for a URL is abstracted as `scrape`; the
`new Date().toISOString()` timestamp is the parameter `ts`. -/
def processUrl (scrape : String → Except String ContactInfo) (ts : String)
    (url : String) : ScrapingResult :=
  match scrape url with
  | .ok d => ⟨url, true, some d, none, ts⟩
  | .error e => ⟨url, false, none, some e, ts⟩

/-- The chunk-by-chunk result accumulation of the batch route (route.ts
lines 88–110): each chunk is mapped through the worker and appended. -/
def batchResults (scrape : String → Except String ContactInfo) (ts : String)
    (urls : List String) : List ScrapingResult :=
  (chunked urls).flatMap (fun chunk => chunk.map (processUrl scrape ts))

/-- The possible responses of the batch endpoint. -/
inductive BatchResponse where
  | badRequest : String → BatchResponse
  | ok : List ScrapingResult → BatchResponse
deriving Repr, DecidableEq

/-- The `PUT` handler (route.ts lines 59–120).  The request body's `urls`
field is `none` when missing or not an array, otherwise the list of URL
strings.  A body with more than 50 URLs is rejected with HTTP 400 before
the scraper is ever consulted. -/
def PUT (scrape : String → Except String ContactInfo) (ts : String) :
    Option (List String) → BatchResponse
  | none => .badRequest "URLs array is required"
  | some us =>
    if us.length > 50 then
      .badRequest "Maximum 50 URLs allowed per batch"
    else
      .ok (batchResults scrape ts us)

/-! ## CSV utilities (`src/utils/csvUtils.ts`) -/

/-- Scheme characters allowed after the first letter of a URL scheme. -/
def isSchemeChar (c : Char) : Bool :=
  c.isAlphanum || c == '+' || c == '-' || c == '.'

/-- Helper for `isValidUrl`: scans scheme characters until a colon. -/
def schemeColon : List Char → Bool
  | [] => false
  | ':' :: _ => true
  | c :: rest => isSchemeChar c && schemeColon rest

/-- Model of `CSVUtils.isValidUrl` (csvUtils.ts lines 109–116), i.e. of
whether the WHATWG `new URL(url)` constructor accepts the string.  The
constructor is a platform builtin; it is modelled here by its leading
requirement, an absolute URL scheme: an ASCII letter followed by scheme
characters and a colon.  Strings without a scheme (e.g. `hello`) are
rejected, scheme-prefixed strings (e.g. `https://example.fi`) accepted. -/
def isValidUrl (s : String) : Bool :=
  match s.data with
  | [] => false
  | c :: rest => c.isAlpha && schemeColon rest

/-- `value.replace(/"/g, '""')`: double every quote character. -/
def escapeChars : List Char → List Char
  | [] => []
  | c :: rest =>
    if c = '"' then '"' :: '"' :: escapeChars rest else c :: escapeChars rest

/-- `escapeCSVValue` (csvUtils.ts lines 97–102): quote a value containing
a comma, quote, or newline, doubling internal quotes. -/
def escapeCSVValue (v : String) : String :=
  if v.data.contains ',' || v.data.contains '"' || v.data.contains '\n' then
    String.mk ('"' :: (escapeChars v.data ++ ['"']))
  else
    v

/-- JS `array.join(sep)` over character lists. -/
def joinChar (sep : Char) : List (List Char) → List Char
  | [] => []
  | [r] => r
  | r :: rs => r ++ sep :: joinChar sep rs

/-- JS `array.join('; ')` used for the legacy row cells. -/
def joinSemis (l : List String) : String :=
  String.intercalate "; " l

/-- The `Error` cell: `result.error || 'Unknown error'` (csvUtils.ts line
78); JS `||` falls through on the empty string. -/
def errCell (e : Option String) : String :=
  match e with
  | some s => if s = "" then "Unknown error" else s
  | none => "Unknown error"

/-- The rows contributed by one result in `createCSVFromResults`
(csvUtils.ts lines 46–82): one row per grouped contact when present, a
single legacy row otherwise, and a single error row for failures. -/
def resultRows (r : ScrapingResult) : List (List String) :=
  if r.success then
    match r.data with
    | some d =>
      if d.contacts.length > 0 then
        d.contacts.map (fun c =>
          [r.url, c.name, c.title, c.phone.getD "", c.email.getD "", ""])
      else
        [[r.url, joinSemis (d.people.map (fun p => p.name)),
          joinSemis (d.people.map (fun p => p.title)),
          joinSemis d.phoneNumbers, joinSemis d.emailAddresses, ""]]
    | none => [[r.url, "", "", "", "", errCell r.error]]
  else
    [[r.url, "", "", "", "", errCell r.error]]

/-- The header line `headers.join(',')` (csvUtils.ts line 43). -/
def headerLine : List Char :=
  "URL,Name,Title,Phone,Email,Error".data

/-- One escaped data row joined with commas (csvUtils.ts lines 85–89). -/
def rowChars (cells : List String) : List Char :=
  joinChar ',' (cells.map (fun c => (escapeCSVValue c).data))

/-- `createCSVFromResults` (csvUtils.ts lines 42–90): header line plus the
escaped rows of every result, joined with newlines. -/
def createCSVFromResults (results : List ScrapingResult) : String :=
  String.mk
    (joinChar '\n' (headerLine :: (results.flatMap resultRows).map rowChars))

/-- The record-reading automaton of the `csv-parser` stream used by
`parseCSVUrls` (csvUtils.ts lines 14–35): standard CSV with `,` separator,
`"` quote, `""` escape and `\n` record terminator.  State `1` is inside a
quoted section, state `2` just after a quote inside a quoted section (to
distinguish `""` escapes from closing quotes), any other state is a plain
unquoted field.  `facc` is the reversed current field, `racc` the current
record, `rows` the finished records. -/
def csvAux (st : Nat) (facc : List Char) (racc : List String)
    (rows : List (List String)) : List Char → List (List String)
  | [] => rows ++ [racc ++ [String.mk facc.reverse]]
  | c :: rest =>
    if st = 1 then
      if c = '"' then csvAux 2 facc racc rows rest
      else csvAux 1 (c :: facc) racc rows rest
    else if st = 2 then
      if c = '"' then csvAux 1 ('"' :: facc) racc rows rest
      else if c = ',' then
        csvAux 0 [] (racc ++ [String.mk facc.reverse]) rows rest
      else if c = '\n' then
        csvAux 0 [] [] (rows ++ [racc ++ [String.mk facc.reverse]]) rest
      else csvAux 0 (c :: facc) racc rows rest
    else
      if c = ',' then csvAux 0 [] (racc ++ [String.mk facc.reverse]) rows rest
      else if c = '\n' then
        csvAux 0 [] [] (rows ++ [racc ++ [String.mk facc.reverse]]) rest
      else if c = '"' ∧ facc = [] then csvAux 1 facc racc rows rest
      else csvAux 0 (c :: facc) racc rows rest

/-- All CSV records of a document. -/
def csvRecords (l : List Char) : List (List String) :=
  csvAux 0 [] [] [] l

/-- Model of JS `String.prototype.trim`: drop JS whitespace from both
ends of the character list. -/
def jsTrim (s : String) : String :=
  String.mk (((s.data.dropWhile isJsWs).reverse.dropWhile isJsWs).reverse)

/-- The URL filter applied to each data row's first column in
`parseCSVUrls` (csvUtils.ts lines 21–27): skip falsy (empty) values,
trim, and keep only strings accepted by `isValidUrl`. -/
def keepUrl (v : String) : Option String :=
  if v ≠ "" ∧ isValidUrl (jsTrim v) then some (jsTrim v) else none

/-- `parseCSVUrls` (csvUtils.ts lines 14–35): the first record is the
`csv-parser` header row; every later record contributes its first column's
value when nonempty and a well-formed URL after trimming. -/
def parseCSVUrls (csvContent : String) : List String :=
  match csvRecords csvContent.data with
  | [] => []
  | _header :: rows =>
    rows.filterMap (fun row =>
      match row with
      | [] => none
      | v :: _ => keepUrl v)

/-- The URL-count validation of the CSV upload route
(`src/app/api/upload` route, `POST`): after parsing, zero URLs or more
than 50 URLs are rejected with HTTP 400. -/
def uploadPOST (csvContent : String) : Except (String × Nat) (List String) :=
  let urls := parseCSVUrls csvContent
  if urls.length = 0 then
    .error ("No valid URLs found in CSV file", 400)
  else if urls.length > 50 then
    .error ("Maximum 50 URLs allowed per CSV file", 400)
  else
    .ok urls

/-! ## Lemmas about the Normalizer -/

theorem keep_of_mem_clean {c : Char} {l : List Char} (h : c ∈ cleanChars l) :
    keepPhoneChar c = true :=
  (List.mem_filter.mp h).2

theorem clean_eq_self_of_all {l : List Char}
    (h : ∀ c ∈ l, keepPhoneChar c = true) : cleanChars l = l :=
  List.filter_eq_self.mpr h

theorem clean_idem (l : List Char) :
    cleanChars (cleanChars l) = cleanChars l :=
  clean_eq_self_of_all (fun _ hc => keep_of_mem_clean hc)

theorem normalize_of_intl {p : String}
    (h : ['+', '3', '5', '8'].isPrefixOf (cleanChars p.data) = true) :
    normalizePhoneNumber p = String.mk (cleanChars p.data) := by
  simp only [normalizePhoneNumber]
  rw [if_pos h]

theorem normalize_of_natl {p : String}
    (h1 : ['+', '3', '5', '8'].isPrefixOf (cleanChars p.data) = false)
    (h2 : ['0'].isPrefixOf (cleanChars p.data) = true) :
    normalizePhoneNumber p =
      String.mk ('+' :: '3' :: '5' :: '8' :: (cleanChars p.data).drop 1) := by
  simp only [normalizePhoneNumber]
  rw [if_neg (by simp [h1]), if_pos h2]

theorem normalize_of_other {p : String}
    (h1 : ['+', '3', '5', '8'].isPrefixOf (cleanChars p.data) = false)
    (h2 : ['0'].isPrefixOf (cleanChars p.data) = false) :
    normalizePhoneNumber p = p := by
  simp only [normalizePhoneNumber]
  rw [if_neg (by simp [h1]), if_neg (by simp [h2])]

theorem clean_mk_prefixed (t : List Char) (h : ∀ c ∈ t, keepPhoneChar c = true) :
    cleanChars (String.mk ('+' :: '3' :: '5' :: '8' :: t)).data =
      '+' :: '3' :: '5' :: '8' :: t := by
  show cleanChars ('+' :: '3' :: '5' :: '8' :: t) = _
  apply clean_eq_self_of_all
  intro c hc
  simp only [List.mem_cons] at hc
  rcases hc with rfl | rfl | rfl | rfl | hc
  · decide
  · decide
  · decide
  · decide
  · exact h c hc

theorem isPrefixOf_intl_cons (t : List Char) :
    ['+', '3', '5', '8'].isPrefixOf ('+' :: '3' :: '5' :: '8' :: t) = true := by
  simp [List.isPrefixOf]

theorem normalizePhoneNumber_idem (p : String) :
    normalizePhoneNumber (normalizePhoneNumber p) = normalizePhoneNumber p := by
  cases h1 : ['+', '3', '5', '8'].isPrefixOf (cleanChars p.data) with
  | true =>
    rw [normalize_of_intl h1]
    have hdata : (String.mk (cleanChars p.data)).data = cleanChars p.data := rfl
    have hcl : cleanChars (String.mk (cleanChars p.data)).data = cleanChars p.data := by
      rw [hdata, clean_idem]
    rw [normalize_of_intl (by rw [hcl]; exact h1), hcl]
  | false =>
    cases h2 : ['0'].isPrefixOf (cleanChars p.data) with
    | true =>
      rw [normalize_of_natl h1 h2]
      have hall : ∀ c ∈ (cleanChars p.data).drop 1, keepPhoneChar c = true :=
        fun c hc => keep_of_mem_clean (List.mem_of_mem_drop hc)
      have hcl := clean_mk_prefixed ((cleanChars p.data).drop 1) hall
      rw [normalize_of_intl (by rw [hcl]; exact isPrefixOf_intl_cons _), hcl]
    | false =>
      rw [normalize_of_other h1 h2, normalize_of_other h1 h2]

/-- **C6** (phone normalization).  `normalizePhoneNumber` is idempotent; a
string already of the form `+358` followed by digits only is returned
unchanged; a `0`-prefixed all-digit national number becomes `+358` followed
by its remaining digits; and a string whose cleaned form starts with
neither `+358` nor `0` is returned exactly as given. -/
theorem normalizePhoneNumber_claims :
    (∀ p : String,
      normalizePhoneNumber (normalizePhoneNumber p) = normalizePhoneNumber p) ∧
    (∀ ds : List Char, (∀ c ∈ ds, c.isDigit = true) →
      normalizePhoneNumber (String.mk ('+' :: '3' :: '5' :: '8' :: ds)) =
        String.mk ('+' :: '3' :: '5' :: '8' :: ds)) ∧
    (∀ ds : List Char, (∀ c ∈ ds, c.isDigit = true) →
      normalizePhoneNumber (String.mk ('0' :: ds)) =
        String.mk ('+' :: '3' :: '5' :: '8' :: ds)) ∧
    (∀ p : String,
      ['+', '3', '5', '8'].isPrefixOf (cleanChars p.data) = false →
      ['0'].isPrefixOf (cleanChars p.data) = false →
      normalizePhoneNumber p = p) := by
  refine ⟨normalizePhoneNumber_idem, ?_, ?_, fun p h1 h2 => normalize_of_other h1 h2⟩
  · intro ds hds
    have hall : ∀ c ∈ ds, keepPhoneChar c = true := by
      intro c hc
      simp [keepPhoneChar, hds c hc]
    have hcl := clean_mk_prefixed ds hall
    rw [normalize_of_intl (by rw [hcl]; exact isPrefixOf_intl_cons _), hcl]
  · intro ds hds
    have hall : ∀ c ∈ ds, keepPhoneChar c = true := by
      intro c hc
      simp [keepPhoneChar, hds c hc]
    have hcl : cleanChars (String.mk ('0' :: ds)).data = '0' :: ds := by
      show cleanChars ('0' :: ds) = _
      apply clean_eq_self_of_all
      intro c hc
      simp only [List.mem_cons] at hc
      rcases hc with rfl | hc
      · decide
      · exact hall c hc
    have h1 : ['+', '3', '5', '8'].isPrefixOf
        (cleanChars (String.mk ('0' :: ds)).data) = false := by
      rw [hcl]; simp [List.isPrefixOf]
    have h2 : ['0'].isPrefixOf (cleanChars (String.mk ('0' :: ds)).data) = true := by
      rw [hcl]; simp [List.isPrefixOf]
    rw [normalize_of_natl h1 h2, hcl]
    rfl

/-- Witness for `normalizePhoneNumber_claims` at concrete inputs: the
already-international number `+358401234567`, the national `0401234567`,
and the unnormalizable `hello`. -/
theorem normalizePhoneNumber_claims_witness :
    normalizePhoneNumber "+358401234567" = "+358401234567" ∧
    normalizePhoneNumber "0401234567" = "+358401234567" ∧
    normalizePhoneNumber "hello" = "hello" := by
  refine ⟨?_, ?_, ?_⟩
  · exact normalizePhoneNumber_claims.2.1
      ['4', '0', '1', '2', '3', '4', '5', '6', '7'] (by decide)
  · exact normalizePhoneNumber_claims.2.2.1
      ['4', '0', '1', '2', '3', '4', '5', '6', '7'] (by decide)
  · exact normalizePhoneNumber_claims.2.2.2 "hello" (by decide) (by decide)

/-! ## Lemmas about `isValidPhoneNumber` -/

theorem digit_keep {c : Char} (h : c.isDigit = true) : keepPhoneChar c = true := by
  simp [keepPhoneChar, h]

theorem ws_not_kept {c : Char} (h : isJsWs c = true) : keepPhoneChar c = false := by
  simp only [isJsWs, Bool.or_eq_true, beq_iff_eq, or_assoc] at h
  rcases h with rfl | rfl | rfl | rfl | rfl | rfl | rfl | rfl | rfl | rfl | rfl |
    rfl | rfl | rfl | rfl | rfl | rfl | rfl | rfl | rfl | rfl | rfl | rfl | rfl |
    rfl <;> decide

theorem clean_cons_keep {c : Char} (l : List Char) (h : keepPhoneChar c = true) :
    cleanChars (c :: l) = c :: cleanChars l := by
  simp [cleanChars, List.filter_cons, h]

theorem clean_cons_drop {c : Char} (l : List Char) (h : keepPhoneChar c = false) :
    cleanChars (c :: l) = cleanChars l := by
  simp [cleanChars, List.filter_cons, h]

theorem part4_clean {l : List Char} (h : part4 l = true) :
    (cleanChars l).all Char.isDigit = true ∧ (cleanChars l).length = 4 := by
  rcases l with _ | ⟨a, _ | ⟨b, _ | ⟨c, _ | ⟨d, _ | ⟨e, t⟩⟩⟩⟩⟩
  · simp [part4] at h
  · simp [part4] at h
  · simp [part4] at h
  · simp [part4] at h
  · simp only [part4, Bool.and_eq_true] at h
    obtain ⟨⟨⟨ha, hb⟩, hc⟩, hd⟩ := h
    rw [clean_cons_keep _ (digit_keep ha), clean_cons_keep _ (digit_keep hb),
      clean_cons_keep _ (digit_keep hc), clean_cons_keep _ (digit_keep hd)]
    simp [cleanChars, ha, hb, hc, hd]
  · simp [part4] at h

theorem optWs4_clean {l : List Char} (h : optWs4 l = true) :
    (cleanChars l).all Char.isDigit = true ∧ (cleanChars l).length = 4 := by
  rcases l with _ | ⟨c, rest⟩
  · simp [optWs4] at h
  · simp only [optWs4] at h
    by_cases hw : isJsWs c = true
    · rw [if_pos hw] at h
      rw [clean_cons_drop _ (ws_not_kept hw)]
      exact part4_clean h
    · rw [if_neg hw] at h
      exact part4_clean h

theorem part3_clean {l : List Char} (h : part3 l = true) :
    (cleanChars l).all Char.isDigit = true ∧ (cleanChars l).length = 7 := by
  rcases l with _ | ⟨a, _ | ⟨b, _ | ⟨c, rest⟩⟩⟩
  · simp [part3] at h
  · simp [part3] at h
  · simp [part3] at h
  · simp only [part3, Bool.and_eq_true] at h
    obtain ⟨⟨⟨ha, hb⟩, hc⟩, h4⟩ := h
    obtain ⟨hall, hlen⟩ := optWs4_clean h4
    rw [clean_cons_keep _ (digit_keep ha), clean_cons_keep _ (digit_keep hb),
      clean_cons_keep _ (digit_keep hc)]
    refine ⟨by simp [List.all_cons, ha, hb, hc, hall], by simp [hlen]⟩

theorem optWs3_clean {l : List Char} (h : optWs3 l = true) :
    (cleanChars l).all Char.isDigit = true ∧ (cleanChars l).length = 7 := by
  rcases l with _ | ⟨c, rest⟩
  · simp [optWs3] at h
  · simp only [optWs3] at h
    by_cases hw : isJsWs c = true
    · rw [if_pos hw] at h
      rw [clean_cons_drop _ (ws_not_kept hw)]
      exact part3_clean h
    · rw [if_neg hw] at h
      exact part3_clean h

theorem spacedTail_clean {l : List Char} (h : spacedTail l = true) :
    (cleanChars l).all Char.isDigit = true ∧ (cleanChars l).length = 9 := by
  rcases l with _ | ⟨a, _ | ⟨b, rest⟩⟩
  · simp [spacedTail] at h
  · simp [spacedTail] at h
  · simp only [spacedTail, Bool.and_eq_true] at h
    obtain ⟨⟨ha, hb⟩, h3⟩ := h
    obtain ⟨hall, hlen⟩ := optWs3_clean h3
    rw [clean_cons_keep _ (digit_keep ha), clean_cons_keep _ (digit_keep hb)]
    refine ⟨by simp [List.all_cons, ha, hb, hall], by simp [hlen]⟩

theorem matchSpaced_subsumed {l : List Char} (h : matchSpaced l = true) :
    (matchIntl (cleanChars l) || matchNatl (cleanChars l)) = true := by
  unfold matchSpaced at h
  by_cases hp : ['+', '3', '5', '8'].isPrefixOf l = true
  · rw [if_pos hp] at h
    obtain ⟨rest, rfl⟩ := (List.isPrefixOf_iff_prefix.mp hp)
    simp only [List.cons_append, List.nil_append, List.drop_succ_cons,
      List.drop_zero] at h ⊢
    obtain ⟨hall, hlen⟩ := spacedTail_clean h
    have hcl : cleanChars ('+' :: '3' :: '5' :: '8' :: rest) =
        '+' :: '3' :: '5' :: '8' :: cleanChars rest := by
      rw [clean_cons_keep _ (by decide), clean_cons_keep _ (by decide),
        clean_cons_keep _ (by decide), clean_cons_keep _ (by decide)]
    rw [hcl]
    simp [matchIntl, hall, hlen]
  · rw [if_neg hp] at h
    by_cases h0 : ['0'].isPrefixOf l = true
    · rw [if_pos h0] at h
      obtain ⟨rest, rfl⟩ := (List.isPrefixOf_iff_prefix.mp h0)
      simp only [List.cons_append, List.nil_append, List.drop_succ_cons,
        List.drop_zero] at h ⊢
      obtain ⟨hall, hlen⟩ := spacedTail_clean h
      have hcl : cleanChars ('0' :: rest) = '0' :: cleanChars rest :=
        clean_cons_keep _ (by decide)
      rw [hcl]
      simp [matchNatl, matchIntl, hall, hlen]
    · rw [if_neg h0] at h
      simp at h

/-- **C7** (phone validity).  `isValidPhoneNumber p` holds exactly when the
string obtained from `p` by stripping every character other than digits and
`+` matches the Finnish national pattern (`0` plus 8–9 digits) or the
international pattern (`+358` plus 8–9 digits): the second, spaced regex of
the source is subsumed by the first one applied to the cleaned string. -/
theorem isValidPhoneNumber_spec (p : String) :
    isValidPhoneNumber p =
      (matchNatl (cleanChars p.data) || matchIntl (cleanChars p.data)) := by
  unfold isValidPhoneNumber
  cases hI : matchIntl (cleanChars p.data) with
  | true => simp [hI]
  | false =>
    cases hN : matchNatl (cleanChars p.data) with
    | true => simp [hI, hN]
    | false =>
      simp only [hI, hN, Bool.false_or, Bool.or_false]
      cases hS : matchSpaced p.data with
      | false => rfl
      | true =>
        have hsub := matchSpaced_subsumed hS
        rw [hI, hN] at hsub
        simp at hsub

/-! ## Lemmas about title extraction -/

theorem extractTitleLoop_all_absent (textLower : String) (ks : List String)
    (h : ∀ kw ∈ ks, strIncludes textLower kw = false) :
    extractTitleLoop textLower ks = "Tuntematon" := by
  induction ks with
  | nil => rfl
  | cons k rest ih =>
    simp only [extractTitleLoop]
    rw [if_neg (by simp [h k (List.mem_cons_self k rest)])]
    exact ih (fun kw hk => h kw (List.mem_cons_of_mem k hk))

theorem extractTitleLoop_first (textLower : String) :
    ∀ (l1 : List String) (kw : String) (l2 : List String),
      strIncludes textLower kw = true →
      (∀ k ∈ l1, strIncludes textLower k = false) →
      extractTitleLoop textLower (l1 ++ kw :: l2) = kw := by
  intro l1
  induction l1 with
  | nil =>
    intro kw l2 hkw _
    simp only [List.nil_append, extractTitleLoop]
    rw [if_pos hkw]
  | cons k rest ih =>
    intro kw l2 hkw habs
    simp only [List.cons_append, extractTitleLoop]
    rw [if_neg (by simp [habs k (List.mem_cons_self k rest)])]
    exact ih kw l2 hkw (fun k' hk' => habs k' (List.mem_cons_of_mem k hk'))

/-- **C4** (amended).  The extracted title is the first keyword of the
fixed ordered job-title list that occurs case-insensitively as a substring
of the region's text; when no keyword occurs, the title is the sentinel
string `"Tuntematon"` (and not `"unknown"`, which never appears in the
source). -/
theorem extractTitle_first_keyword (text : String) :
    ((∀ kw ∈ titleKeywords, occursCI text kw = false) →
      extractTitle text = "Tuntematon") ∧
    (∀ (l1 : List String) (kw : String) (l2 : List String),
      titleKeywords = l1 ++ kw :: l2 →
      occursCI text kw = true →
      (∀ k ∈ l1, occursCI text k = false) →
      extractTitle text = kw) := by
  constructor
  · intro h
    exact extractTitleLoop_all_absent (lowerStr text) titleKeywords
      (fun kw hk => h kw hk)
  · intro l1 kw l2 heq hkw habs
    unfold extractTitle
    rw [heq]
    exact extractTitleLoop_first (lowerStr text) l1 kw l2 hkw habs

/-- Witness for `extractTitle_first_keyword`: a text containing no keyword
yields the sentinel, and a text containing the list's first keyword
`toimitusjohtaja` yields exactly that keyword. -/
theorem extractTitle_first_keyword_witness :
    extractTitle "Matti Meikäläinen 040 123 4567" = "Tuntematon" ∧
    extractTitle "Liisa on Toimitusjohtaja yhtiössä" = "toimitusjohtaja" := by
  constructor
  · exact (extractTitle_first_keyword _).1 (by decide)
  · exact (extractTitle_first_keyword _).2 [] "toimitusjohtaja"
      titleKeywords.tail rfl (by decide) (by intro k hk; simp at hk)

/-- **C4 counterexample**: for a contact-bearing region text in which no
keyword of the list occurs, the title is `"Tuntematon"`, not the string
`"unknown"` stated by the claim. -/
theorem extractTitle_sentinel_not_unknown :
    (∀ kw ∈ titleKeywords, occursCI "Matti Meikäläinen 040 123 4567" kw = false) ∧
    extractTitle "Matti Meikäläinen 040 123 4567" = "Tuntematon" ∧
    extractTitle "Matti Meikäläinen 040 123 4567" ≠ "unknown" := by
  refine ⟨by decide, by decide, by decide⟩

/-! ## Lemmas about deduplication -/

theorem beq_str_comm (a b : String) : (a == b) = (b == a) := by
  by_cases h : a = b
  · subst h; rfl
  · have h1 : (a == b) = false := beq_eq_false_iff_ne.mpr h
    have h2 : (b == a) = false := beq_eq_false_iff_ne.mpr (Ne.symm h)
    rw [h1, h2]

theorem dedupLoop_eq_spec (l : List Contact) : ∀ acc : List Contact,
    dedupLoop acc l = acc ++ specFirstOccurrenceDedup
      (l.filter (fun d => !(acc.any (fun e => contactKey e == contactKey d)))) := by
  induction l with
  | nil => intro acc; simp [dedupLoop, specFirstOccurrenceDedup]
  | cons c rest ih =>
    intro acc
    simp only [dedupLoop]
    by_cases hc : acc.any (fun e => contactKey e == contactKey c) = true
    · rw [if_pos hc, ih acc]
      congr 2
      simp [List.filter_cons, hc]
    · rw [if_neg hc, ih (acc ++ [c])]
      have hcf : acc.any (fun e => contactKey e == contactKey c) = false :=
        Bool.not_eq_true _ ▸ Bool.of_not_eq_true hc
      have hfilter :
          (c :: rest).filter
              (fun d => !(acc.any (fun e => contactKey e == contactKey d))) =
            c :: rest.filter
              (fun d => !(acc.any (fun e => contactKey e == contactKey d))) := by
        simp [List.filter_cons, hcf]
      rw [hfilter]
      rw [specFirstOccurrenceDedup]
      have hpred : ∀ d : Contact,
          (!((acc ++ [c]).any (fun e => contactKey e == contactKey d))) =
          ((!(contactKey d == contactKey c)) &&
            (!(acc.any (fun e => contactKey e == contactKey d)))) := by
        intro d
        rw [List.any_append]
        simp only [List.any_cons, List.any_nil, Bool.or_false, Bool.not_or]
        rw [beq_str_comm (contactKey d) (contactKey c), Bool.and_comm]
      calc (acc ++ [c]) ++ specFirstOccurrenceDedup
            (rest.filter
              (fun d => !((acc ++ [c]).any (fun e => contactKey e == contactKey d))))
          = acc ++ (c :: specFirstOccurrenceDedup
            (rest.filter
              (fun d => !((acc ++ [c]).any (fun e => contactKey e == contactKey d))))) := by
            simp
        _ = acc ++ (c :: specFirstOccurrenceDedup
            ((rest.filter
                (fun d => !(acc.any (fun e => contactKey e == contactKey d)))).filter
              (fun d => !(contactKey d == contactKey c)))) := by
            rw [List.filter_filter]
            congr 3
            exact List.filter_congr (fun d _ => hpred d)

/-- **C5** (deduplication).  `removeDuplicateContacts` equals the
declarative first-occurrence dedup (merging records whose names are equal
up to case, with the first occurrence — and hence its title/phone/email —
winning) truncated to 10 records, and its result never has more than 10
elements. -/
theorem removeDuplicateContacts_spec (l : List Contact) :
    removeDuplicateContacts l = (specFirstOccurrenceDedup l).take 10 ∧
    (removeDuplicateContacts l).length ≤ 10 := by
  have h := dedupLoop_eq_spec l []
  simp only [List.any_nil, Bool.not_false, List.filter_true, List.nil_append] at h
  constructor
  · unfold removeDuplicateContacts
    rw [h]
  · unfold removeDuplicateContacts
    rw [h]
    exact List.length_take_le 10 _

/-! ## Lemmas about the retry loop -/

theorem scrapeAttempts_succ {α : Type} (fetch : Nat → Except String α)
    (attempt fuel : Nat) :
    scrapeAttempts fetch attempt (fuel + 1) =
      match fetch attempt with
      | .ok v => .ok v
      | .error e =>
        if isNonRetryableError e || fuel == 0 then .error (e, attempt)
        else scrapeAttempts fetch (attempt + 1) fuel := rfl

/-- **C2** (non-retryable short-circuit).  `HTTP 403` responses are
classified non-retryable; a first attempt failing with any non-retryable
error stops the loop after exactly one attempt, for every transport; and a
run whose first two failures are retryable performs all three attempts and
surfaces the third attempt's error. -/
theorem nonRetryable_short_circuit :
    isNonRetryableError "HTTP 403: Forbidden" = true ∧
    (∀ (α : Type) (fetch : Nat → Except String α) (e : String),
      fetch 1 = .error e → isNonRetryableError e = true →
      scrapeAttempts fetch 1 maxRetries = .error (e, 1)) ∧
    (∀ (α : Type) (fetch : Nat → Except String α) (e1 e2 e3 : String),
      fetch 1 = .error e1 → fetch 2 = .error e2 → fetch 3 = .error e3 →
      isNonRetryableError e1 = false → isNonRetryableError e2 = false →
      scrapeAttempts fetch 1 maxRetries = .error (e3, 3)) := by
  refine ⟨by decide, ?_, ?_⟩
  · intro α fetch e h1 hn
    show scrapeAttempts fetch 1 (2 + 1) = .error (e, 1)
    rw [scrapeAttempts_succ, h1]
    simp [hn]
  · intro α fetch e1 e2 e3 h1 h2 h3 hr1 hr2
    show scrapeAttempts fetch 1 (2 + 1) = .error (e3, 3)
    rw [scrapeAttempts_succ, h1]
    simp only [hr1, Bool.false_or]
    rw [if_neg (by simp)]
    show scrapeAttempts fetch 2 (1 + 1) = .error (e3, 3)
    rw [scrapeAttempts_succ, h2]
    simp only [hr2, Bool.false_or]
    rw [if_neg (by simp)]
    show scrapeAttempts fetch 3 (0 + 1) = .error (e3, 3)
    rw [scrapeAttempts_succ, h3]
    simp

/-- Witness for `nonRetryable_short_circuit`: a transport that always
fails with `HTTP 403` stops after one attempt; a transport with retryable
failures exhausts all three attempts and reports the third error. -/
theorem nonRetryable_short_circuit_witness :
    scrapeAttempts (fun _ => (.error "HTTP 403: Forbidden" : Except String Unit))
        1 maxRetries = .error ("HTTP 403: Forbidden", 1) ∧
    scrapeAttempts
        (fun n => (.error (if n = 1 then "timeout A" else
          if n = 2 then "timeout B" else "timeout C") : Except String Unit))
        1 maxRetries = .error ("timeout C", 3) := by
  constructor
  · exact nonRetryable_short_circuit.2.1 Unit _ "HTTP 403: Forbidden" rfl (by decide)
  · exact nonRetryable_short_circuit.2.2 Unit _ "timeout A" "timeout B" "timeout C"
      rfl rfl rfl (by decide) (by decide)

/-- **C3** (amended).  When the attempt loop fails — after `n` attempts,
for any `n` — `scrapeContactInfo` raises a terminal error whose message
carries the last underlying error's message together with the constant
retry budget (`maxRetries = 3`), irrespective of the number of attempts
actually made. -/
theorem scrape_terminal_message {α : Type} (fetch : Nat → Except String α)
    (url e : String) (n : Nat)
    (h : scrapeAttempts fetch 1 maxRetries = .error (e, n)) :
    scrapeContactInfo fetch url = .error (failMsg url e) := by
  unfold scrapeContactInfo
  rw [h]

/-- Witness for `scrape_terminal_message` at a concrete one-attempt
(non-retryable) failure; the message names 3 attempts. -/
theorem scrape_terminal_message_witness :
    scrapeContactInfo (fun _ => (.error "HTTP 403: Forbidden" : Except String Unit))
        "https://example.fi" =
      .error "Failed to scrape https://example.fi after 3 attempts: HTTP 403: Forbidden" := by
  have h := scrape_terminal_message
    (fun _ => (.error "HTTP 403: Forbidden" : Except String Unit))
    "https://example.fi" "HTTP 403: Forbidden" 1 (by rfl)
  exact h.trans rfl

/-- **C3 counterexample**: an HTTP 403 on the first attempt makes exactly
one attempt, yet the terminal message claims 3 attempts — it does not
carry the number of attempts actually made. -/
theorem scrape_attempt_count_cex :
    scrapeAttempts (fun _ => (.error "HTTP 403: Forbidden" : Except String Unit))
        1 maxRetries = .error ("HTTP 403: Forbidden", 1) ∧
    scrapeContactInfo (fun _ => (.error "HTTP 403: Forbidden" : Except String Unit))
        "https://example.fi" =
      .error "Failed to scrape https://example.fi after 3 attempts: HTTP 403: Forbidden" ∧
    strIncludes
      "Failed to scrape https://example.fi after 3 attempts: HTTP 403: Forbidden"
      "after 1 attempts" = false ∧
    strIncludes
      "Failed to scrape https://example.fi after 3 attempts: HTTP 403: Forbidden"
      "after 3 attempts" = true := by
  refine ⟨by rfl, by rfl, by decide, by decide⟩

/-! ## Lemmas about the batch route -/

theorem chunked_flatMap {α β : Type} (f : α → β) :
    ∀ (n : Nat) (l : List α), l.length ≤ n →
      (chunked l).flatMap (fun chunk => chunk.map f) = l.map f := by
  intro n
  induction n with
  | zero =>
    intro l hl
    have : l = [] := List.eq_nil_of_length_eq_zero (Nat.le_zero.mp hl)
    subst this
    simp [chunked]
  | succ n ih =>
    intro l hl
    match l with
    | [] => simp [chunked]
    | x :: xs =>
      rw [chunked]
      rw [List.flatMap_cons]
      rw [ih ((x :: xs).drop concurrencyLimit)
        (by simp only [concurrencyLimit, List.length_drop, List.length_cons] at hl ⊢
            omega)]
      rw [← List.map_append, List.take_append_drop]

theorem batchResults_eq_map (scrape : String → Except String ContactInfo)
    (ts : String) (urls : List String) :
    batchResults scrape ts urls = urls.map (processUrl scrape ts) := by
  unfold batchResults
  exact chunked_flatMap _ urls.length urls (Nat.le_refl _)

/-- **C1** (per-URL batch results).  For every batch of at most 50 URLs
the endpoint returns exactly one `ScrapingResult` per input URL in input
order — the results are precisely the input list mapped through the
per-URL worker — and the worker converts every pipeline error into a
`success := false` result carrying that URL and that error message, and
every pipeline success into a `success := true` result, so no URL is ever
skipped or aborts its siblings. -/
theorem batch_per_url_results (scrape : String → Except String ContactInfo)
    (ts : String) (urls : List String) (h : urls.length ≤ 50) :
    PUT scrape ts (some urls) = .ok (urls.map (processUrl scrape ts)) ∧
    (∀ u e, scrape u = .error e →
      processUrl scrape ts u = ⟨u, false, none, some e, ts⟩) ∧
    (∀ u d, scrape u = .ok d →
      processUrl scrape ts u = ⟨u, true, some d, none, ts⟩) := by
  refine ⟨?_, ?_, ?_⟩
  · simp only [PUT]
    rw [if_neg (by omega), batchResults_eq_map]
  · intro u e he
    unfold processUrl
    rw [he]
  · intro u d hd
    unfold processUrl
    rw [hd]

/-- Witness for `batch_per_url_results`: a two-URL batch against an
always-failing pipeline yields two failure results in input order. -/
theorem batch_per_url_results_witness :
    PUT (fun u => .error ("fail " ++ u)) "t" (some ["https://a.fi", "https://b.fi"]) =
      .ok [⟨"https://a.fi", false, none, some "fail https://a.fi", "t"⟩,
           ⟨"https://b.fi", false, none, some "fail https://b.fi", "t"⟩] := by
  have h := (batch_per_url_results (fun u => .error ("fail " ++ u)) "t"
    ["https://a.fi", "https://b.fi"] (by decide)).1
  exact h.trans rfl

/-- **C8** (batch size bound).  A 51-URL batch is rejected with the
HTTP 400 message before the scraper is consulted (the response is the same
for every pipeline), while a 50-URL batch is accepted and produces 50
results. -/
theorem batch_size_invariant (scrape : String → Except String ContactInfo)
    (ts : String) (urls51 urls50 : List String)
    (h51 : urls51.length = 51) (h50 : urls50.length = 50) :
    PUT scrape ts (some urls51) = .badRequest "Maximum 50 URLs allowed per batch" ∧
    ∃ rs, PUT scrape ts (some urls50) = .ok rs ∧ rs.length = 50 := by
  constructor
  · simp only [PUT]
    rw [if_pos (by omega)]
  · refine ⟨urls50.map (processUrl scrape ts), ?_, by simp [h50]⟩
    simp only [PUT]
    rw [if_neg (by omega), batchResults_eq_map]

/-- Witness for `batch_size_invariant` at concrete replicated URL lists. -/
theorem batch_size_invariant_witness :
    PUT (fun _ => .error "e") "t" (some (List.replicate 51 "https://x.fi")) =
      .badRequest "Maximum 50 URLs allowed per batch" ∧
    ∃ rs, PUT (fun _ => .error "e") "t" (some (List.replicate 50 "https://x.fi")) =
      .ok rs ∧ rs.length = 50 :=
  batch_size_invariant (fun _ => .error "e") "t" _ _ (by simp) (by simp)

/-- **C10** (empty batch accepted).  An empty `urls` array passes the
batch endpoint's validation: no fetch is performed (the response is the
same for every pipeline) and the result list is empty — while the CSV
upload route rejects a document yielding zero valid URLs with HTTP 400. -/
theorem batch_empty_accepted :
    (∀ (scrape : String → Except String ContactInfo) (ts : String),
      PUT scrape ts (some []) = .ok []) ∧
    (∀ csvContent : String, parseCSVUrls csvContent = [] →
      uploadPOST csvContent = .error ("No valid URLs found in CSV file", 400)) := by
  constructor
  · intro scrape ts
    simp only [PUT]
    rw [if_neg (by simp)]
    simp [batchResults, chunked]
  · intro csv h
    simp [uploadPOST, h]

/-- Witness for `batch_empty_accepted`: the empty batch against an
always-failing pipeline, and a header-only CSV document. -/
theorem batch_empty_accepted_witness :
    PUT (fun _ => .error "e") "t" (some []) = .ok [] ∧
    uploadPOST "URL" = .error ("No valid URLs found in CSV file", 400) :=
  ⟨batch_empty_accepted.1 (fun _ => .error "e") "t",
   batch_empty_accepted.2 "URL" rfl⟩

/-! ## Lemmas about the CSV round trip -/

theorem mk_data (s : String) : String.mk s.data = s := rfl

theorem not_mem_of_contains_false {l : List Char} {a : Char}
    (h : l.contains a = false) : a ∉ l := by
  intro hm
  rw [show l.contains a = l.elem a from rfl, List.elem_eq_true_of_mem hm] at h
  cases h

theorem csvAux_nil (st : Nat) (facc : List Char) (racc : List String)
    (rows : List (List String)) :
    csvAux st facc racc rows [] = rows ++ [racc ++ [String.mk facc.reverse]] := rfl

theorem csvAux0_comma (facc : List Char) (racc : List String)
    (rows : List (List String)) (rest : List Char) :
    csvAux 0 facc racc rows (',' :: rest) =
      csvAux 0 [] (racc ++ [String.mk facc.reverse]) rows rest := rfl

theorem csvAux0_nl (facc : List Char) (racc : List String)
    (rows : List (List String)) (rest : List Char) :
    csvAux 0 facc racc rows ('\n' :: rest) =
      csvAux 0 [] [] (rows ++ [racc ++ [String.mk facc.reverse]]) rest := rfl

theorem csvAux0_quote_start (racc : List String) (rows : List (List String))
    (rest : List Char) :
    csvAux 0 [] racc rows ('"' :: rest) = csvAux 1 [] racc rows rest := rfl

theorem csvAux0_char {c : Char} (hc1 : c ≠ ',') (hc2 : c ≠ '\n') (hc3 : c ≠ '"')
    (facc : List Char) (racc : List String) (rows : List (List String))
    (rest : List Char) :
    csvAux 0 facc racc rows (c :: rest) = csvAux 0 (c :: facc) racc rows rest := by
  simp only [csvAux]
  rw [if_neg (by decide), if_neg (by decide), if_neg hc1, if_neg hc2,
    if_neg (fun h => hc3 h.1)]

theorem csvAux1_quote (facc : List Char) (racc : List String)
    (rows : List (List String)) (rest : List Char) :
    csvAux 1 facc racc rows ('"' :: rest) = csvAux 2 facc racc rows rest := rfl

theorem csvAux1_char {c : Char} (hc : c ≠ '"') (facc : List Char)
    (racc : List String) (rows : List (List String)) (rest : List Char) :
    csvAux 1 facc racc rows (c :: rest) = csvAux 1 (c :: facc) racc rows rest := by
  simp [csvAux, hc]

theorem csvAux2_quote (facc : List Char) (racc : List String)
    (rows : List (List String)) (rest : List Char) :
    csvAux 2 facc racc rows ('"' :: rest) =
      csvAux 1 ('"' :: facc) racc rows rest := rfl

theorem csvAux2_comma (facc : List Char) (racc : List String)
    (rows : List (List String)) (rest : List Char) :
    csvAux 2 facc racc rows (',' :: rest) =
      csvAux 0 [] (racc ++ [String.mk facc.reverse]) rows rest := rfl

theorem csvAux2_nl (facc : List Char) (racc : List String)
    (rows : List (List String)) (rest : List Char) :
    csvAux 2 facc racc rows ('\n' :: rest) =
      csvAux 0 [] [] (rows ++ [racc ++ [String.mk facc.reverse]]) rest := rfl

/-- Reading an unquoted run of plain characters accumulates them into the
current field. -/
theorem csvAux_unquoted (v : List Char)
    (hv : ∀ c ∈ v, c ≠ ',' ∧ c ≠ '\n' ∧ c ≠ '"') :
    ∀ (facc : List Char) (racc : List String) (rows : List (List String))
      (rest : List Char),
      csvAux 0 facc racc rows (v ++ rest) =
        csvAux 0 (v.reverse ++ facc) racc rows rest := by
  induction v with
  | nil => intro facc racc rows rest; simp
  | cons c t ih =>
    intro facc racc rows rest
    obtain ⟨hc1, hc2, hc3⟩ := hv c (List.mem_cons_self c t)
    rw [List.cons_append, csvAux0_char hc1 hc2 hc3,
      ih (fun d hd => hv d (List.mem_cons_of_mem c hd))]
    simp

/-- Reading the quote-doubled image of `w` inside a quoted section, up to
the closing quote, accumulates exactly `w` into the current field. -/
theorem csvAux_quoted (w : List Char) :
    ∀ (facc : List Char) (racc : List String) (rows : List (List String))
      (rest : List Char),
      csvAux 1 facc racc rows (escapeChars w ++ '"' :: rest) =
        csvAux 2 (w.reverse ++ facc) racc rows rest := by
  induction w with
  | nil =>
    intro facc racc rows rest
    rw [show escapeChars [] = [] from rfl]
    simp [csvAux1_quote]
  | cons c t ih =>
    intro facc racc rows rest
    by_cases hc : c = '"'
    · subst hc
      rw [show escapeChars ('"' :: t) = '"' :: '"' :: escapeChars t from by
        simp [escapeChars]]
      rw [List.cons_append, List.cons_append, csvAux1_quote, csvAux2_quote, ih]
      simp
    · rw [show escapeChars (c :: t) = c :: escapeChars t from by
        simp [escapeChars, hc]]
      rw [List.cons_append, csvAux1_char hc, ih]
      simp

/-- Reading one escaped cell followed by a comma pushes the original cell
value onto the current record. -/
theorem csvAux_cell_comma (v : String) (racc : List String)
    (rows : List (List String)) (rest : List Char) :
    csvAux 0 [] racc rows ((escapeCSVValue v).data ++ ',' :: rest) =
      csvAux 0 [] (racc ++ [v]) rows rest := by
  unfold escapeCSVValue
  by_cases hq : (v.data.contains ',' || v.data.contains '"' ||
      v.data.contains '\n') = true
  · rw [if_pos hq]
    rw [show (String.mk ('"' :: (escapeChars v.data ++ ['"']))).data =
      '"' :: (escapeChars v.data ++ ['"']) from rfl]
    rw [List.cons_append, csvAux0_quote_start, List.append_assoc,
      List.singleton_append, csvAux_quoted, csvAux2_comma]
    simp [mk_data]
  · rw [if_neg hq]
    simp only [Bool.or_eq_true, not_or, Bool.not_eq_true] at hq
    obtain ⟨⟨h1, h2⟩, h3⟩ := hq
    have hv : ∀ c ∈ v.data, c ≠ ',' ∧ c ≠ '\n' ∧ c ≠ '"' := by
      intro c hc
      exact ⟨fun he => not_mem_of_contains_false h1 (he ▸ hc),
        fun he => not_mem_of_contains_false h3 (he ▸ hc),
        fun he => not_mem_of_contains_false h2 (he ▸ hc)⟩
    rw [csvAux_unquoted v.data hv, csvAux0_comma]
    simp [mk_data]

/-- Reading one escaped cell followed by a newline finishes the current
record with the original cell value. -/
theorem csvAux_cell_nl (v : String) (racc : List String)
    (rows : List (List String)) (rest : List Char) :
    csvAux 0 [] racc rows ((escapeCSVValue v).data ++ '\n' :: rest) =
      csvAux 0 [] [] (rows ++ [racc ++ [v]]) rest := by
  unfold escapeCSVValue
  by_cases hq : (v.data.contains ',' || v.data.contains '"' ||
      v.data.contains '\n') = true
  · rw [if_pos hq]
    rw [show (String.mk ('"' :: (escapeChars v.data ++ ['"']))).data =
      '"' :: (escapeChars v.data ++ ['"']) from rfl]
    rw [List.cons_append, csvAux0_quote_start, List.append_assoc,
      List.singleton_append, csvAux_quoted, csvAux2_nl]
    simp [mk_data]
  · rw [if_neg hq]
    simp only [Bool.or_eq_true, not_or, Bool.not_eq_true] at hq
    obtain ⟨⟨h1, h2⟩, h3⟩ := hq
    have hv : ∀ c ∈ v.data, c ≠ ',' ∧ c ≠ '\n' ∧ c ≠ '"' := by
      intro c hc
      exact ⟨fun he => not_mem_of_contains_false h1 (he ▸ hc),
        fun he => not_mem_of_contains_false h3 (he ▸ hc),
        fun he => not_mem_of_contains_false h2 (he ▸ hc)⟩
    rw [csvAux_unquoted v.data hv, csvAux0_nl]
    simp [mk_data]

/-- Reading one escaped cell at end of input finishes the document with the
original cell value. -/
theorem csvAux_cell_eof (v : String) (racc : List String)
    (rows : List (List String)) :
    csvAux 0 [] racc rows (escapeCSVValue v).data = rows ++ [racc ++ [v]] := by
  unfold escapeCSVValue
  by_cases hq : (v.data.contains ',' || v.data.contains '"' ||
      v.data.contains '\n') = true
  · rw [if_pos hq]
    rw [show (String.mk ('"' :: (escapeChars v.data ++ ['"']))).data =
      '"' :: (escapeChars v.data ++ ['"']) from rfl]
    rw [show '"' :: (escapeChars v.data ++ ['"']) =
      '"' :: (escapeChars v.data ++ '"' :: []) from by simp]
    rw [csvAux0_quote_start, csvAux_quoted, csvAux_nil]
    simp [mk_data]
  · rw [if_neg hq]
    simp only [Bool.or_eq_true, not_or, Bool.not_eq_true] at hq
    obtain ⟨⟨h1, h2⟩, h3⟩ := hq
    have hv : ∀ c ∈ v.data, c ≠ ',' ∧ c ≠ '\n' ∧ c ≠ '"' := by
      intro c hc
      exact ⟨fun he => not_mem_of_contains_false h1 (he ▸ hc),
        fun he => not_mem_of_contains_false h3 (he ▸ hc),
        fun he => not_mem_of_contains_false h2 (he ▸ hc)⟩
    have hstep := csvAux_unquoted v.data hv [] racc rows []
    rw [List.append_nil] at hstep
    rw [hstep, csvAux_nil]
    simp [mk_data]

/-- Reading one whole escaped row at end of input appends the original
record. -/
theorem csvAux_row_eof : ∀ (cs : List String) (c : String)
    (racc : List String) (rows : List (List String)),
    csvAux 0 [] racc rows (rowChars (c :: cs)) = rows ++ [racc ++ c :: cs] := by
  intro cs
  induction cs with
  | nil =>
    intro c racc rows
    rw [show rowChars [c] = (escapeCSVValue c).data from rfl, csvAux_cell_eof]
  | cons c2 cs ih =>
    intro c racc rows
    rw [show rowChars (c :: c2 :: cs) =
      (escapeCSVValue c).data ++ ',' :: rowChars (c2 :: cs) from rfl]
    rw [csvAux_cell_comma, ih c2 (racc ++ [c]) rows]
    simp

/-- Reading one whole escaped row followed by a newline appends the
original record and continues. -/
theorem csvAux_row_nl : ∀ (cs : List String) (c : String)
    (racc : List String) (rows : List (List String)) (rest : List Char),
    csvAux 0 [] racc rows (rowChars (c :: cs) ++ '\n' :: rest) =
      csvAux 0 [] [] (rows ++ [racc ++ c :: cs]) rest := by
  intro cs
  induction cs with
  | nil =>
    intro c racc rows rest
    rw [show rowChars [c] = (escapeCSVValue c).data from rfl, csvAux_cell_nl]
  | cons c2 cs ih =>
    intro c racc rows rest
    rw [show rowChars (c :: c2 :: cs) =
      (escapeCSVValue c).data ++ ',' :: rowChars (c2 :: cs) from rfl]
    rw [List.append_assoc, List.cons_append, csvAux_cell_comma,
      ih c2 (racc ++ [c]) rows rest]
    simp

/-- The CSV reader recovers every escaped, comma-joined, newline-joined
record list exactly. -/
theorem csvAux_rows : ∀ (rl : List (List String)),
    (∀ r ∈ rl, r ≠ []) → rl ≠ [] →
    ∀ rows : List (List String),
      csvAux 0 [] [] rows (joinChar '\n' (rl.map rowChars)) = rows ++ rl := by
  intro rl
  induction rl with
  | nil => intro _ h; exact absurd rfl h
  | cons r rl ih =>
    intro hne _ rows
    obtain ⟨c, cs, rfl⟩ : ∃ c cs, r = c :: cs := by
      cases r with
      | nil => exact absurd rfl (hne [] (List.mem_cons_self [] rl))
      | cons c cs => exact ⟨c, cs, rfl⟩
    cases rl with
    | nil =>
      simp only [List.map_cons, List.map_nil]
      rw [show joinChar '\n' [rowChars (c :: cs)] = rowChars (c :: cs) from rfl]
      rw [csvAux_row_eof]
      rfl
    | cons r2 rl2 =>
      simp only [List.map_cons]
      rw [show joinChar '\n'
          (rowChars (c :: cs) :: rowChars r2 :: rl2.map rowChars) =
        rowChars (c :: cs) ++ '\n' ::
          joinChar '\n' (rowChars r2 :: rl2.map rowChars) from rfl]
      rw [csvAux_row_nl]
      have hrec := ih (fun x hx => hne x (List.mem_cons_of_mem _ hx)) (by simp)
        (rows ++ [[] ++ c :: cs])
      simp only [List.map_cons] at hrec
      rw [hrec]
      simp

/-- Every row produced for a result starts with that result's URL (and in
particular is nonempty). -/
theorem resultRows_first (r : ScrapingResult) :
    ∀ row ∈ resultRows r, ∃ t, row = r.url :: t := by
  obtain ⟨url, succ, data, err, ts⟩ := r
  intro row hrow
  cases succ with
  | false =>
    simp only [resultRows] at hrow
    rw [if_neg (by simp)] at hrow
    simp only [List.mem_singleton] at hrow
    exact ⟨_, hrow⟩
  | true =>
    cases data with
    | none =>
      simp only [resultRows] at hrow
      rw [if_pos trivial] at hrow
      simp only [List.mem_singleton] at hrow
      exact ⟨_, hrow⟩
    | some d =>
      simp only [resultRows] at hrow
      rw [if_pos trivial] at hrow
      by_cases hc : d.contacts.length > 0
      · rw [if_pos hc] at hrow
        obtain ⟨ct, _, rfl⟩ := List.mem_map.mp hrow
        exact ⟨_, rfl⟩
      · rw [if_neg hc] at hrow
        simp only [List.mem_singleton] at hrow
        exact ⟨_, hrow⟩

/-- The CSV records of an exported result list are exactly the header
record followed by each result's rows. -/
theorem csvRecords_createCSV (results : List ScrapingResult) :
    csvRecords (createCSVFromResults results).data =
      ["URL", "Name", "Title", "Phone", "Email", "Error"] ::
        results.flatMap resultRows := by
  unfold csvRecords createCSVFromResults
  rw [show (String.mk (joinChar '\n'
      (headerLine :: (results.flatMap resultRows).map rowChars))).data =
    joinChar '\n' (headerLine :: (results.flatMap resultRows).map rowChars)
    from rfl]
  rw [show headerLine :: (results.flatMap resultRows).map rowChars =
    ((["URL", "Name", "Title", "Phone", "Email", "Error"] ::
      results.flatMap resultRows).map rowChars) from rfl]
  rw [csvAux_rows _ ?_ (by simp) []]
  · rfl
  · intro row hrow
    rcases List.mem_cons.mp hrow with rfl | hrow
    · simp
    · obtain ⟨r, _, hr⟩ := List.mem_flatMap.mp hrow
      obtain ⟨t, rfl⟩ := resultRows_first r row hr
      simp

/-- **C9** (amended).  Exporting a result list with
`createCSVFromResults` and re-parsing the document's first column with
`parseCSVUrls` yields, in order, one copy of each result's URL per
exported row (one per extracted contact when several), filtered through
the parser's URL check (`keepUrl`: nonempty and still a well-formed URL
after trimming); in particular the round trip is exact — it reproduces the
URL list in order and membership — whenever every result produces exactly
one row and its URL passes the check unchanged.  URLs that fail the check
(e.g. malformed ones from failed scrapes) are dropped, so the unamended
claim does not hold for arbitrary result lists. -/
theorem csv_roundtrip (results : List ScrapingResult) :
    parseCSVUrls (createCSVFromResults results) =
      (results.flatMap (fun r => (resultRows r).map (fun _ => r.url))).filterMap
        keepUrl ∧
    ((∀ r ∈ results, (resultRows r).length = 1 ∧ keepUrl r.url = some r.url) →
      parseCSVUrls (createCSVFromResults results) =
        results.map (fun r => r.url)) := by
  have hmain : parseCSVUrls (createCSVFromResults results) =
      (results.flatMap (fun r => (resultRows r).map (fun _ => r.url))).filterMap
        keepUrl := by
    unfold parseCSVUrls
    rw [csvRecords_createCSV]
    show (results.flatMap resultRows).filterMap
        (fun row => match row with | [] => none | v :: _ => keepUrl v) = _
    induction results with
    | nil => rfl
    | cons r rs ih =>
      simp only [List.flatMap_cons, List.filterMap_append]
      rw [ih]
      congr 1
      have : ∀ rlist : List (List String),
          (∀ row ∈ rlist, ∃ t, row = r.url :: t) →
          rlist.filterMap
              (fun row => match row with | [] => none | v :: _ => keepUrl v) =
            (rlist.map (fun _ => r.url)).filterMap keepUrl := by
        intro rlist
        induction rlist with
        | nil => intro _; rfl
        | cons row rest ihr =>
          intro hall
          obtain ⟨t, rfl⟩ := hall _ (List.mem_cons_self row rest)
          simp only [List.filterMap_cons, List.map_cons]
          rw [ihr (fun x hx => hall x (List.mem_cons_of_mem _ hx))]
      exact this (resultRows r) (resultRows_first r)
  refine ⟨hmain, fun hone => ?_⟩
  rw [hmain]
  clear hmain
  revert hone
  induction results with
  | nil => intro _; rfl
  | cons r rs ih =>
    intro hone
    obtain ⟨hlen, hkeep⟩ := hone r (List.mem_cons_self r rs)
    obtain ⟨row, hrow⟩ : ∃ row, resultRows r = [row] :=
      List.length_eq_one.mp hlen
    simp only [List.flatMap_cons, hrow, List.map_cons, List.map_nil,
      List.filterMap_append, List.filterMap_cons, List.filterMap_nil, hkeep]
    rw [ih (fun x hx => hone x (List.mem_cons_of_mem _ hx))]
    rfl

/-- Witness for `csv_roundtrip`: a success with one contact and a failure,
both with well-formed URLs, round-trip exactly. -/
theorem csv_roundtrip_witness :
    parseCSVUrls (createCSVFromResults
      [⟨"https://a.fi", true,
        some ⟨[⟨"Matti Meikäläinen", "tj", some "+358401234567",
          some "m@a.fi"⟩], [], [], []⟩, none, "2024-01-01"⟩,
       ⟨"https://b.fi", false, none, some "boom", "2024-01-01"⟩]) =
      ["https://a.fi", "https://b.fi"] := by
  have h := (csv_roundtrip
    [⟨"https://a.fi", true,
      some ⟨[⟨"Matti Meikäläinen", "tj", some "+358401234567",
        some "m@a.fi"⟩], [], [], []⟩, none, "2024-01-01"⟩,
     ⟨"https://b.fi", false, none, some "boom", "2024-01-01"⟩]).2 (by decide)
  exact h.trans rfl

/-- **C9 counterexample**: a failed result whose URL is not a well-formed
URL is exported to CSV but dropped when the document is parsed back, so the
round trip loses it — membership is not preserved. -/
theorem csv_roundtrip_cex :
    parseCSVUrls (createCSVFromResults
      [⟨"hello", false, none, some "boom", "2024-01-01"⟩]) = [] ∧
    [(⟨"hello", false, none, some "boom", "2024-01-01"⟩ : ScrapingResult)].map
      (fun r => r.url) = ["hello"] := by
  refine ⟨by decide, by decide⟩

end Yhteystieto
